import Mathlib

/-!
Shallow embedding of the Event Deduplication & Rate-Limiting Engine with its
Aggregation Layer of the auction-api backend
(`src/analytics/analytics.service.ts`, `src/analytics/repositories/analytics.repository.ts`).

Modelling conventions:
* JS `Date.now()` values and parsed timestamps are integers (milliseconds).
  An event's stored `timestamp` is `Option Int`: `none` models an Invalid Date
  (`new Date(<unparsable string>)`, whose `getTime()` is `NaN`); comparisons
  against a NaN date are false, matching the ordering behaviour of NaN.
* The optional client-supplied timestamp string of a DTO is modelled by its
  parse result: `none` = field absent (or empty, which is falsy in JS),
  `some none` = supplied but unparsable, `some (some v)` = parses to instant `v`.
* The per-kind in-memory `Map<string, number>` cache is an association list;
  `Map.set` replaces an existing binding in place or appends a new one.
* The Mongo collection of one event kind is a `List EventRec` in insertion
  order; `findOne` is `List.find?`, `insertMany`/`save` append, `deleteMany`
  removes the matching documents and reports their number.
* `trackClick`/`trackClicksBatch` are textually identical to
  `trackImpression`/`trackImpressionsBatch` up to the cooldown constant and the
  cache/collection used, so a single Lean function parameterised by `Config`
  models both kinds.
* The outcome of the awaited store write (`createImpression` /
  `createImpressionsBatch`) is an explicit `storeOk : Bool` parameter; `false`
  models the store call failing after the preceding in-memory effects ran.
-/

namespace AuctionAnalytics

/-- A persisted analytics event (impression or click document).
Payload-only fields that no analytics code reads (`search_query`,
`position_in_results`) are omitted. -/
structure EventRec where
  item_id : String
  session_id : String
  user_id : Option String
  source : String
  ts : Option Int
deriving DecidableEq, Repr

/-- An inbound tracking DTO (`TrackImpressionDto` / `TrackClickDto`).
`timestamp` is the parse-result model of the optional ISO-8601 string. -/
structure TrackDto where
  item_id : String
  session_id : String
  user_id : Option String := none
  source : String := "direct"
  timestamp : Option (Option Int) := none
deriving DecidableEq, Repr

/-- The per-kind slice of `AnalyticsConfig` used by the tracking paths. -/
structure Config where
  rateLimitWindow : Int
  cooldown : Int
deriving DecidableEq, Repr

/-- Defaults for impressions: `ANALYTICS_RATE_LIMIT_WINDOW = 60000`,
`ANALYTICS_IMPRESSION_COOLDOWN = 30000`. -/
def impressionConfig : Config := { rateLimitWindow := 60000, cooldown := 30000 }

/-- Defaults for clicks: `ANALYTICS_RATE_LIMIT_WINDOW = 60000`,
`ANALYTICS_CLICK_COOLDOWN = 5000`. -/
def clickConfig : Config := { rateLimitWindow := 60000, cooldown := 5000 }

/-- The in-process hot cache of one event kind:
`Map<string, number>` from `session_item` key to last-accepted `Date.now()`. -/
abbrev Cache := List (String × Int)

/-- Embeds `` `${session_id}_${item_id}` `` — the cache key built by the service. -/
def cacheKey (session_id item_id : String) : String :=
  session_id ++ "_" ++ item_id

/-- Embeds `Map.get` (with `Map.has` folded in: `none` = key absent). -/
def cacheGet (c : Cache) (k : String) : Option Int :=
  (c.find? (fun p => decide (p.1 = k))).map (·.2)

/-- Embeds `Map.set`: replace the binding in place if the key is present, else append. -/
def cacheSet : Cache → String → Int → Cache
  | [], k, v => [(k, v)]
  | p :: rest, k, v =>
    if p.1 = k then (k, v) :: rest else p :: cacheSet rest k v

/-- Mongo comparison `timestamp >= bound` for a stored (possibly NaN) date. -/
def tsGe (ts : Option Int) (bound : Int) : Bool :=
  match ts with
  | some v => decide (bound ≤ v)
  | none => false

/-- Mongo comparison `timestamp < bound` for a stored (possibly NaN) date. -/
def tsLt (ts : Option Int) (bound : Int) : Bool :=
  match ts with
  | some v => decide (v < bound)
  | none => false

/-- Mongo comparison `timestamp <= bound` for a stored (possibly NaN) date. -/
def tsLe (ts : Option Int) (bound : Int) : Bool :=
  match ts with
  | some v => decide (v ≤ bound)
  | none => false

/-- Embeds `findImpressionBySessionAndItem` / `findClickBySessionAndItem`:
`findOne({session_id, item_id, timestamp: {$gte: startTime}})`. -/
def findBySessionAndItem (store : List EventRec) (sessionId itemId : String)
    (startTime : Int) : Option EventRec :=
  store.find? (fun e =>
    decide (e.session_id = sessionId) && decide (e.item_id = itemId)
      && tsGe e.ts startTime)

/-- The result of a single `trackImpression`/`trackClick` call.
`rateLimited` and `duplicate` are the two `BadRequestException` rejections
("tracked too recently" / "already tracked"); `storeUnavailable` is the store
write failing after the checks passed. -/
inductive TrackResult where
  | accepted (e : EventRec)
  | rateLimited
  | duplicate
  | storeUnavailable
deriving DecidableEq, Repr

/-- The hot-cache cooldown test at the top of `trackImpression`:
`impressionCache.has(cacheKey) && now - impressionCache.get(cacheKey) < COOLDOWN`. -/
def cacheFresh (cfg : Config) (c : Cache) (k : String) (now : Int) : Bool :=
  match cacheGet c k with
  | some last => decide (now - last < cfg.cooldown)
  | none => false

/-- Embeds `timestamp: dto.timestamp ? new Date(dto.timestamp) : new Date()`. -/
def normalizeTs (tsArg : Option (Option Int)) (now : Int) : Option Int :=
  match tsArg with
  | some parsed => parsed
  | none => some now

/-- The event document the service builds from a DTO before persisting it. -/
def mkEvent (dto : TrackDto) (now : Int) : EventRec :=
  { item_id := dto.item_id
    session_id := dto.session_id
    user_id := dto.user_id
    source := dto.source
    ts := normalizeTs dto.timestamp now }

/-- Embeds `trackImpression` (and, with `clickConfig`, the identically-shaped
`trackClick`): hot-cache cooldown check, then
`findImpressionBySessionAndItem` over the rate-limit window, then cache update
followed by the awaited `createImpression`; `storeOk = false` models that final
store write failing (the exception propagates, the cache update stays). -/
def trackImpression (cfg : Config) (cache : Cache) (store : List EventRec)
    (dto : TrackDto) (now : Int) (storeOk : Bool) :
    TrackResult × Cache × List EventRec :=
  let k := cacheKey dto.session_id dto.item_id
  if cacheFresh cfg cache k now then
    (.rateLimited, cache, store)
  else
    let startTime := now - cfg.rateLimitWindow
    match findBySessionAndItem store dto.session_id dto.item_id startTime with
    | some _ => (.duplicate, cache, store)
    | none =>
      let e := mkEvent dto now
      let cache1 := cacheSet cache k now
      if storeOk then (.accepted e, cache1, store ++ [e])
      else (.storeUnavailable, cache1, store)

/-- Embeds `cleanCache`: drop every cache entry with `timestamp < now - RATE_LIMIT_WINDOW`. -/
def cleanCache (cfg : Config) (cache : Cache) (now : Int) : Cache :=
  cache.filter (fun p => !(decide (p.2 < now - cfg.rateLimitWindow)))

/-- Embeds `findExistingImpressions` / `findExistingClicks`:
`find({$or: pairs.map(pair => {session_id, item_id, timestamp: {$gte: startTime}})})`. -/
def findExisting (store : List EventRec) (pairs : List (String × String))
    (startTime : Int) : List EventRec :=
  store.filter (fun e =>
    pairs.any (fun pr =>
      decide (e.session_id = pr.1) && decide (e.item_id = pr.2) && tsGe e.ts startTime))

/-- The skip test of one iteration of the batch loop: skip when the hot cache
holds a within-cooldown entry for the key, or the key is in the `existingSet`
built from the bulk pre-check (the two consecutive `continue` guards). -/
def batchSkip (cfg : Config) (cache : Cache) (existingKeys : List String)
    (k : String) (now : Int) : Bool :=
  cacheFresh cfg cache k now || decide (k ∈ existingKeys)

/-- The `for (const impression of impressions)` loop of `trackImpressionsBatch`
(and of the identically-shaped `trackClicksBatch`): builds `validImpressions`
and mutates the cache for each accepted entry.  The third component instruments
the loop with the per-input accept/skip decision (`true` = pushed to
`validImpressions`); it accumulates information only and feeds back into
nothing. -/
def batchLoop (cfg : Config) (now : Int) (existingKeys : List String) :
    List TrackDto → Cache → List EventRec × Cache × List Bool
  | [], cache => ([], cache, [])
  | dto :: rest, cache =>
    let k := cacheKey dto.session_id dto.item_id
    if batchSkip cfg cache existingKeys k now then
      let r := batchLoop cfg now existingKeys rest cache
      (r.1, r.2.1, false :: r.2.2)
    else
      let r := batchLoop cfg now existingKeys rest (cacheSet cache k now)
      (mkEvent dto now :: r.1, r.2.1, true :: r.2.2)

/-- The `existingSet` of the batch paths: the cache keys of the documents
returned by the bulk existence pre-check. -/
def existingKeysOf (cfg : Config) (store : List EventRec) (dtos : List TrackDto)
    (now : Int) : List String :=
  (findExisting store (dtos.map (fun d => (d.session_id, d.item_id)))
      (now - cfg.rateLimitWindow)).map
    (fun e => cacheKey e.session_id e.item_id)

/-- Embeds `trackImpressionsBatch` (and, with `clickConfig`, `trackClicksBatch`):
early return on an empty batch, bulk existence pre-check
(`findExistingImpressions`), the loop over the inputs, and one
`createImpressionsBatch` insert of the surviving events.  Returns the value the
service returns (the inserted documents) together with the new cache and store. -/
def trackImpressionsBatch (cfg : Config) (cache : Cache) (store : List EventRec)
    (dtos : List TrackDto) (now : Int) :
    List EventRec × Cache × List EventRec :=
  if dtos.isEmpty then ([], cache, store)
  else
    let existingKeys := existingKeysOf cfg store dtos now
    let r := batchLoop cfg now existingKeys dtos cache
    if r.1.isEmpty then ([], r.2.1, store)
    else (r.1, r.2.1, store ++ r.1)

/-- The instrumented per-input decisions of `trackImpressionsBatch`
(`true` at position `i` iff input `i` was pushed to `validImpressions`). -/
def batchDecisions (cfg : Config) (cache : Cache) (store : List EventRec)
    (dtos : List TrackDto) (now : Int) : List Bool :=
  (batchLoop cfg now (existingKeysOf cfg store dtos now) dtos cache).2.2

/-- Embeds `AnalyticsFilters` (`source` included; the payload-only fields it can
filter on but the service never sets are omitted). -/
structure AnalyticsFilters where
  item_id : Option String := none
  user_id : Option String := none
  session_id : Option String := none
  source : Option String := none
  startDate : Option Int := none
  endDate : Option Int := none
deriving DecidableEq, Repr

/-- Embeds `buildDateFilter` + the `$gte`/`$lte` match it produces on a timestamp.
An absent bound imposes no constraint; a NaN stored date matches neither bound. -/
def dateFilterMatches (startDate endDate : Option Int) (ts : Option Int) : Bool :=
  (match startDate with
   | some s => tsGe ts s
   | none => true)
  && (match endDate with
      | some e => tsLe ts e
      | none => true)

/-- Embeds `buildAnalyticsFilter` applied to one document: every present filter field
must match (Mongo conjunction of the query fields). -/
def analyticsFilterMatches (f : AnalyticsFilters) (e : EventRec) : Bool :=
  (match f.item_id with | some v => decide (e.item_id = v) | none => true)
  && (match f.user_id with | some v => decide (e.user_id = some v) | none => true)
  && (match f.session_id with | some v => decide (e.session_id = v) | none => true)
  && (match f.source with | some v => decide (e.source = v) | none => true)
  && dateFilterMatches f.startDate f.endDate e.ts

/-- Embeds `countImpressionsByFilter` / `countClicksByFilter`:
`countDocuments(buildAnalyticsFilter(filters))`. -/
def countByFilter (store : List EventRec) (f : AnalyticsFilters) : Nat :=
  (store.filter (analyticsFilterMatches f)).length

/-- Embeds `distinct(field, query)`: the distinct values of a field among the matching
documents, in first-appearance order. -/
def distinctVals : List String → List String → List String
  | [], _ => []
  | x :: xs, seen =>
    if x ∈ seen then distinctVals xs seen
    else x :: distinctVals xs (x :: seen)

/-- Embeds `getDistinctItemsByFilter`: `impressionModel.distinct('item_id', query)` —
note it always queries the *impression* collection. -/
def getDistinctItemsByFilter (impressionStore : List EventRec)
    (f : AnalyticsFilters) : List String :=
  distinctVals ((impressionStore.filter (analyticsFilterMatches f)).map (·.item_id)) []

/-- Embeds `getDistinctUsersByFilter`: `impressionModel.distinct('user_id', query)`
(documents without a `user_id` contribute no value). -/
def getDistinctUsersByFilter (impressionStore : List EventRec)
    (f : AnalyticsFilters) : List String :=
  distinctVals ((impressionStore.filter (analyticsFilterMatches f)).filterMap (·.user_id)) []

/-- Embeds `getDistinctSessionsByFilter`: `impressionModel.distinct('session_id', query)`. -/
def getDistinctSessionsByFilter (impressionStore : List EventRec)
    (f : AnalyticsFilters) : List String :=
  distinctVals ((impressionStore.filter (analyticsFilterMatches f)).map (·.session_id)) []

/-- One row produced by the `$group`/`$project` stages of
`getPopularItemsAggregation`. -/
structure TrendingRow where
  itemId : String
  impressions : Nat
  uniqueUsers : Nat
  uniqueSessions : Nat
deriving DecidableEq, Repr

/-- The `$group: {_id: '$item_id', ...}` / `$project` stages applied to one
item id: `impressions: {$sum: 1}`, `uniqueUsers: {$size: {$addToSet: '$user_id'}}`
(documents without `user_id` contribute no set element),
`uniqueSessions: {$size: {$addToSet: '$session_id'}}`. -/
def mkTrendingRow (events : List EventRec) (id : String) : TrendingRow :=
  let grp := events.filter (fun e => decide (e.item_id = id))
  { itemId := id
    impressions := grp.length
    uniqueUsers := (distinctVals (grp.filterMap (·.user_id)) []).length
    uniqueSessions := (distinctVals (grp.map (·.session_id)) []).length }

/-- One step of the stable descending sort on `impressions`: insert a row after
every already-placed row whose count is at least as large. -/
def insertRow (x : TrendingRow) : List TrendingRow → List TrendingRow
  | [] => [x]
  | y :: ys =>
    if y.impressions < x.impressions then x :: y :: ys
    else y :: insertRow x ys

/-- The `$sort: {impressions: -1}` stage: the pipeline names no secondary sort
key, so the embedding fixes the representative semantics "stable sort of the
incoming group order on the single key `impressions`, descending". -/
def sortRowsDesc (rows : List TrendingRow) : List TrendingRow :=
  rows.foldl (fun acc x => insertRow x acc) []

/-- The optional `$match: {timestamp: dateFilter}` stage (pushed only when
`buildDateFilter` produced at least one bound). -/
def matchStage (f : AnalyticsFilters) (impressionStore : List EventRec) :
    List EventRec :=
  if f.startDate = none ∧ f.endDate = none then impressionStore
  else impressionStore.filter (fun e => dateFilterMatches f.startDate f.endDate e.ts)

/-- Embeds `getPopularItemsAggregation`: optional `$match` on the date filter, then
`$group` by `item_id` (groups enumerated in first-appearance order of the
item in the collection — Mongo leaves the group order unspecified), then
`$project`, `$sort: {impressions: -1}`, `$limit: limit`. -/
def getPopularItemsAggregation (limit : Nat) (f : AnalyticsFilters)
    (impressionStore : List EventRec) : List TrendingRow :=
  let matched := matchStage f impressionStore
  let ids := distinctVals (matched.map (·.item_id)) []
  let rows := ids.map (mkTrendingRow matched)
  (sortRowsDesc rows).take limit

/-- Embeds `getTrendingItems(limit, startDate?, endDate?)`: builds the date-only
filter and delegates to `getPopularItemsAggregation`. -/
def getTrendingItems (limit : Nat) (startDate endDate : Option Int)
    (impressionStore : List EventRec) : List TrendingRow :=
  getPopularItemsAggregation limit
    { startDate := startDate, endDate := endDate } impressionStore

/-- Embeds `getUserAnalytics` result (`clickThroughRate`, a JS float, is exact
rational division here; no claim depends on it). -/
structure UserAnalytics where
  userId : String
  impressions : Nat
  clicks : Nat
  viewedItems : Nat
  clickedItems : Nat
  clickThroughRate : ℚ
deriving DecidableEq, Repr

/-- Embeds `getUserAnalytics(userId, startDate?, endDate?)`.  Mirrors the source: both
`viewedItems` and `clickedItems` are produced by `getDistinctItemsByFilter`,
which queries the impression collection. -/
def getUserAnalytics (impressionStore clickStore : List EventRec)
    (userId : String) (startDate endDate : Option Int) : UserAnalytics :=
  let filters : AnalyticsFilters :=
    { user_id := some userId, startDate := startDate, endDate := endDate }
  let impressions := countByFilter impressionStore filters
  let clicks := countByFilter clickStore filters
  let viewedItems := getDistinctItemsByFilter impressionStore filters
  let clickedItems := getDistinctItemsByFilter impressionStore filters
  { userId := userId
    impressions := impressions
    clicks := clicks
    viewedItems := viewedItems.length
    clickedItems := clickedItems.length
    clickThroughRate :=
      if 0 < impressions then ((clicks : ℚ) / (impressions : ℚ)) * 100 else 0 }

/-- Embeds `deleteOldImpressions` / `deleteOldClicks`:
`deleteMany({timestamp: {$lt: cutoffDate}})` — the remaining collection and the
reported `deletedCount`. -/
def deleteOldEvents (store : List EventRec) (cutoff : Int) :
    List EventRec × Nat :=
  (store.filter (fun e => !(tsLt e.ts cutoff)),
   (store.filter (fun e => tsLt e.ts cutoff)).length)

/-- Embeds `cleanOldEvents`: runs both per-kind deletions with the same cutoff and
returns `{impressions, clicks}` deleted counts (the calendar computation of the
cutoff from `daysToKeep` happens before this; the claims quantify over the
cutoff itself). -/
def cleanOldEvents (impressionStore clickStore : List EventRec) (cutoff : Int) :
    (List EventRec × List EventRec) × (Nat × Nat) :=
  let di := deleteOldEvents impressionStore cutoff
  let dc := deleteOldEvents clickStore cutoff
  ((di.1, dc.1), (di.2, dc.2))

/-!  ### Interleaving model of two concurrent single submissions

`trackImpression` suspends at its two `await`s (the `findOne` read and the
`createImpression` write).  A call therefore executes as three atomic phases:

1. the synchronous prefix up to the cache-cooldown check,
2. resumption with the `findOne` result and the duplicate decision,
3. the cache update together with the store append and the return.

Two concurrent calls for the same key interleave these phases in any order;
the model below runs two such calls over the shared cache and store under an
explicit schedule. -/

/-- The phase counter of one in-flight `trackImpression` call. -/
inductive TPhase where
  | start
  | checked
  | decided
  | finished (accepted : Bool)
deriving DecidableEq, Repr

/-- The shared mutable state: the hot cache and the event collection. -/
structure Shared where
  cache : Cache
  store : List EventRec
deriving DecidableEq, Repr

/-- One atomic phase of a `trackImpression` call for `dto` at time `now`. -/
def threadStep (cfg : Config) (dto : TrackDto) (now : Int)
    (sh : Shared) (pc : TPhase) : Shared × TPhase :=
  let k := cacheKey dto.session_id dto.item_id
  match pc with
  | .start =>
    if cacheFresh cfg sh.cache k now then (sh, .finished false)
    else (sh, .checked)
  | .checked =>
    match findBySessionAndItem sh.store dto.session_id dto.item_id
        (now - cfg.rateLimitWindow) with
    | some _ => (sh, .finished false)
    | none => (sh, .decided)
  | .decided =>
    ({ cache := cacheSet sh.cache k now, store := sh.store ++ [mkEvent dto now] },
     .finished true)
  | .finished b => (sh, .finished b)

/-- The two-caller system: shared state plus each call's phase. -/
structure TwoCalls where
  shared : Shared
  pc1 : TPhase
  pc2 : TPhase
deriving DecidableEq, Repr

/-- Run one atomic phase of call 1 (`true`) or call 2 (`false`). -/
def schedStep (cfg : Config) (dto : TrackDto) (now : Int)
    (st : TwoCalls) (first : Bool) : TwoCalls :=
  if first then
    let r := threadStep cfg dto now st.shared st.pc1
    { shared := r.1, pc1 := r.2, pc2 := st.pc2 }
  else
    let r := threadStep cfg dto now st.shared st.pc2
    { shared := r.1, pc1 := st.pc1, pc2 := r.2 }

/-- Run a schedule (a list of which call performs its next phase). -/
def runSched (cfg : Config) (dto : TrackDto) (now : Int) :
    List Bool → TwoCalls → TwoCalls
  | [], st => st
  | c :: cs, st => runSched cfg dto now cs (schedStep cfg dto now st c)

/-- Both in-flight calls start at their first phase over the given state. -/
def initCalls (sh : Shared) : TwoCalls :=
  { shared := sh, pc1 := .start, pc2 := .start }

/-!  ### Sequential runs of single submissions (claim C1)  -/

/-- Whether a tracking call returned the accepted outcome. -/
def isAccepted : TrackResult → Bool
  | .accepted _ => true
  | _ => false

/-- Run a sequence of single submissions of the same DTO sequentially, each at
its own `Date.now()` value, threading cache and store; records, per
submission, whether it was accepted. -/
def runTrack (cfg : Config) (dto : TrackDto) :
    Cache → List EventRec → List Int → List Bool
  | _, _, [] => []
  | cache, store, t :: ts =>
    let r := trackImpression cfg cache store dto t true
    isAccepted r.1 :: runTrack cfg dto r.2.1 r.2.2 ts

/-- Spec-side acceptance condition for one submission at time `t` against the
list `acc` of previously accepted times of the same key, following the words of
spec property I1: accepted iff `t` minus the most recent accepted time is at
least the cooldown AND no accepted event lies in the preceding rate-limit
window `[t - W, t]` (vacuously accepted when nothing was accepted before). -/
def specAccept (cfg : Config) (acc : List Int) (t : Int) : Bool :=
  match acc.getLast? with
  | none => true
  | some last =>
    decide (cfg.cooldown ≤ t - last)
      && acc.all (fun v => decide (v < t - cfg.rateLimitWindow))

/-- Spec-side run: the decision sequence obtained by applying `specAccept` to
each submission time in turn, accumulating the accepted times. -/
def runSpecTrack (cfg : Config) : List Int → List Int → List Bool
  | _, [] => []
  | acc, t :: ts =>
    let d := specAccept cfg acc t
    d :: runSpecTrack cfg (if d then acc ++ [t] else acc) ts

/-- The hot-cache contents reached after accepting exactly the times `acc` for
the single key of `dto`. -/
def keyCache (dto : TrackDto) (acc : List Int) : Cache :=
  match acc.getLast? with
  | none => []
  | some last => [(cacheKey dto.session_id dto.item_id, last)]

/-!  ### Concrete inputs used by counterexamples and witnesses  -/

/-- A plain impression DTO with no client-supplied timestamp. -/
def exDto : TrackDto := { item_id := "i1", session_id := "s1" }

/-- A DTO whose supplied timestamp string does not parse
(`new Date(string)` is an Invalid Date). -/
def badTsDto : TrackDto :=
  { item_id := "i1", session_id := "s1", timestamp := some none }

/-- An impression of item `"B"` (stored before `exAEvent`). -/
def exBEvent : EventRec :=
  { item_id := "B", session_id := "s1", user_id := none, source := "direct",
    ts := some 0 }

/-- An impression of item `"A"` (stored after `exBEvent`). -/
def exAEvent : EventRec :=
  { item_id := "A", session_id := "s2", user_id := none, source := "direct",
    ts := some 0 }

/-- An impression by user `"U"` of item `"Y"`. -/
def exImpY : EventRec :=
  { item_id := "Y", session_id := "s1", user_id := some "U", source := "direct",
    ts := some 0 }

/-- An impression by user `"U"` of item `"Z"`. -/
def exImpZ : EventRec :=
  { item_id := "Z", session_id := "s1", user_id := some "U", source := "direct",
    ts := some 0 }

/-- A click by user `"U"` of item `"X"`. -/
def exClkX : EventRec :=
  { item_id := "X", session_id := "s1", user_id := some "U", source := "direct",
    ts := some 0 }

/-- A key is blocked for the rest of a batch run: it is in the bulk pre-check
set, or the cache holds an entry for it within the cooldown of the batch's
single `now`. -/
def keyBlocked (cfg : Config) (ex : List String) (now : Int) (k : String)
    (c : Cache) : Prop :=
  k ∈ ex ∨ ∃ v, cacheGet c k = some v ∧ now - v < cfg.cooldown

/-!  ## Supporting lemmas  -/

theorem cacheGet_set_self (c : Cache) (k : String) (v : Int) :
    cacheGet (cacheSet c k v) k = some v := by
  induction c with
  | nil => simp [cacheGet, cacheSet, List.find?]
  | cons p rest ih =>
    by_cases h : p.1 = k
    · simp [cacheSet, h, cacheGet, List.find?]
    · simp only [cacheSet, if_neg h]
      simpa [cacheGet, List.find?, h] using ih

theorem cacheGet_set_ne (c : Cache) (k k' : String) (v : Int) (h : k' ≠ k) :
    cacheGet (cacheSet c k' v) k = cacheGet c k := by
  induction c with
  | nil => simp [cacheGet, cacheSet, List.find?, h]
  | cons p rest ih =>
    by_cases hp : p.1 = k'
    · simp [cacheSet, hp, cacheGet, List.find?, h, hp ▸ h]
    · simp only [cacheSet, if_neg hp]
      by_cases hk : p.1 = k
      · simp [cacheGet, List.find?, hk]
      · simpa [cacheGet, List.find?, hk] using ih

/-!  ## Claim theorems  -/

/-- C5: for a single submission whose supplied timestamp string does not parse,
the service does not reject; from a fresh state it accepts the submission and
appends to the store an event whose timestamp is an Invalid Date (NaN), contrary
to the claimed rejection-with-no-write (and to the isNaN guard shown as
current implementation in the repository's analysis document). -/
theorem c5_invalid_timestamp_accepted_and_persisted :
    trackImpression impressionConfig [] [] badTsDto 0 true
      = (.accepted (mkEvent badTsDto 0), [(cacheKey "s1" "i1", 0)],
         [mkEvent badTsDto 0])
    ∧ (mkEvent badTsDto 0).ts = none := by
  exact ⟨rfl, rfl⟩

/-- C8: `getUserAnalytics` computes `clickedItems` with the same
impression-collection query as `viewedItems`; on a store where user `"U"` has
impressions on two items and clicks on one item, the reported
`clickedItems` is 2 (the distinct viewed items) while the distinct items
actually clicked by `"U"` number 1. -/
theorem c8_clicked_items_counts_impressions :
    (∀ imps clks uid sd ed,
      (getUserAnalytics imps clks uid sd ed).clickedItems
        = (getUserAnalytics imps clks uid sd ed).viewedItems)
    ∧ (getUserAnalytics [exImpY, exImpZ] [exClkX] "U" none none).clickedItems = 2
    ∧ (distinctVals
        (([exClkX].filter
            (analyticsFilterMatches { user_id := some "U" })).map (·.item_id))
        []).length = 1 := by
  refine ⟨fun imps clks uid sd ed => rfl, ?_, ?_⟩ <;> decide

/-- C2 counterexample: with the default impression configuration, the
interleaving in which both concurrent same-key calls pass their cache check and
their store read before either commits ends with both calls accepted. -/
theorem c2_race_both_accepted :
    (runSched impressionConfig exDto 1000 [true, false, true, false, true, false]
        (initCalls ⟨[], []⟩)).pc1 = .finished true
    ∧ (runSched impressionConfig exDto 1000 [true, false, true, false, true, false]
        (initCalls ⟨[], []⟩)).pc2 = .finished true :=
  ⟨rfl, rfl⟩

theorem runSched_append (cfg : Config) (dto : TrackDto) (now : Int)
    (a b : List Bool) (st : TwoCalls) :
    runSched cfg dto now (a ++ b) st = runSched cfg dto now b (runSched cfg dto now a st) := by
  induction a generalizing st with
  | nil => rfl
  | cons c cs ih => simp [runSched, ih]

theorem runSched_solo_first (cfg : Config) (dto : TrackDto) (now : Int)
    (sh : Shared) (p2 : TPhase) :
    runSched cfg dto now [true, true, true] ⟨sh, .start, p2⟩
      = { shared := ⟨(trackImpression cfg sh.cache sh.store dto now true).2.1,
                     (trackImpression cfg sh.cache sh.store dto now true).2.2⟩,
          pc1 := .finished (isAccepted (trackImpression cfg sh.cache sh.store dto now true).1),
          pc2 := p2 } := by
  by_cases hf : cacheFresh cfg sh.cache (cacheKey dto.session_id dto.item_id) now
  · simp [runSched, schedStep, threadStep, trackImpression, hf, isAccepted]
  · cases hfind : findBySessionAndItem sh.store dto.session_id dto.item_id
        (now - cfg.rateLimitWindow) with
    | some e => simp [runSched, schedStep, threadStep, trackImpression, hf, hfind, isAccepted]
    | none => simp [runSched, schedStep, threadStep, trackImpression, hf, hfind, isAccepted]

theorem runSched_solo_second (cfg : Config) (dto : TrackDto) (now : Int)
    (sh : Shared) (p1 : TPhase) :
    runSched cfg dto now [false, false, false] ⟨sh, p1, .start⟩
      = { shared := ⟨(trackImpression cfg sh.cache sh.store dto now true).2.1,
                     (trackImpression cfg sh.cache sh.store dto now true).2.2⟩,
          pc1 := p1,
          pc2 := .finished (isAccepted (trackImpression cfg sh.cache sh.store dto now true).1) } := by
  by_cases hf : cacheFresh cfg sh.cache (cacheKey dto.session_id dto.item_id) now
  · simp [runSched, schedStep, threadStep, trackImpression, hf, isAccepted]
  · cases hfind : findBySessionAndItem sh.store dto.session_id dto.item_id
        (now - cfg.rateLimitWindow) with
    | some e => simp [runSched, schedStep, threadStep, trackImpression, hf, hfind, isAccepted]
    | none => simp [runSched, schedStep, threadStep, trackImpression, hf, hfind, isAccepted]

theorem findBySessionAndItem_append_self (cfg : Config) (store : List EventRec)
    (dto : TrackDto) (now : Int) (hts : dto.timestamp = none)
    (hW : 0 ≤ cfg.rateLimitWindow) :
    findBySessionAndItem (store ++ [mkEvent dto now]) dto.session_id dto.item_id
        (now - cfg.rateLimitWindow) ≠ none := by
  have hpred : (fun e => decide (e.session_id = dto.session_id)
      && decide (e.item_id = dto.item_id)
      && tsGe e.ts (now - cfg.rateLimitWindow)) (mkEvent dto now) = true := by
    simp [mkEvent, normalizeTs, hts, tsGe]
    omega
  unfold findBySessionAndItem
  rw [List.find?_append]
  cases hfirst : store.find? (fun e => decide (e.session_id = dto.session_id)
      && decide (e.item_id = dto.item_id)
      && tsGe e.ts (now - cfg.rateLimitWindow)) with
  | some e => simp
  | none => simp [List.find?, hpred]

/-- C2 amended: the acceptance decision is a cache check and a store read
followed by a separate insert in application code; only the sequential
(non-interleaved) execution of two concurrent same-key calls is race-free.
The sequential schedule behaves exactly as the two calls composed, and when the
first call is accepted the second is rejected (with a nonnegative rate-limit
window and no client-supplied timestamp). -/
theorem c2_sequential_at_most_one (cfg : Config) (dto : TrackDto) (now : Int)
    (sh : Shared) (hW : 0 ≤ cfg.rateLimitWindow) (hts : dto.timestamp = none) :
    runSched cfg dto now [true, true, true, false, false, false] (initCalls sh)
      = { shared :=
            ⟨(trackImpression cfg
                (trackImpression cfg sh.cache sh.store dto now true).2.1
                (trackImpression cfg sh.cache sh.store dto now true).2.2
                dto now true).2.1,
              (trackImpression cfg
                (trackImpression cfg sh.cache sh.store dto now true).2.1
                (trackImpression cfg sh.cache sh.store dto now true).2.2
                dto now true).2.2⟩,
          pc1 := .finished (isAccepted (trackImpression cfg sh.cache sh.store dto now true).1),
          pc2 := .finished (isAccepted (trackImpression cfg
              (trackImpression cfg sh.cache sh.store dto now true).2.1
              (trackImpression cfg sh.cache sh.store dto now true).2.2
              dto now true).1) }
    ∧ (isAccepted (trackImpression cfg sh.cache sh.store dto now true).1 = true →
        isAccepted (trackImpression cfg
            (trackImpression cfg sh.cache sh.store dto now true).2.1
            (trackImpression cfg sh.cache sh.store dto now true).2.2
            dto now true).1 = false) := by
  constructor
  · have hsplit : ([true, true, true, false, false, false] : List Bool)
        = [true, true, true] ++ [false, false, false] := rfl
    rw [hsplit, runSched_append, initCalls, runSched_solo_first, runSched_solo_second]
  · intro hacc
    have hr1 : (trackImpression cfg sh.cache sh.store dto now true).2.1
          = cacheSet sh.cache (cacheKey dto.session_id dto.item_id) now
        ∧ (trackImpression cfg sh.cache sh.store dto now true).2.2
          = sh.store ++ [mkEvent dto now] := by
      by_cases hf : cacheFresh cfg sh.cache (cacheKey dto.session_id dto.item_id) now
      · simp [trackImpression, hf, isAccepted] at hacc
      · cases hfind : findBySessionAndItem sh.store dto.session_id dto.item_id
            (now - cfg.rateLimitWindow) with
        | some e => simp [trackImpression, hf, hfind, isAccepted] at hacc
        | none => simp [trackImpression, hf, hfind]
    rw [hr1.1, hr1.2]
    by_cases hf2 : cacheFresh cfg
        (cacheSet sh.cache (cacheKey dto.session_id dto.item_id) now)
        (cacheKey dto.session_id dto.item_id) now
    · simp [trackImpression, hf2, isAccepted]
    · cases hfind2 : findBySessionAndItem (sh.store ++ [mkEvent dto now])
          dto.session_id dto.item_id (now - cfg.rateLimitWindow) with
      | some e => simp [trackImpression, hf2, hfind2, isAccepted]
      | none =>
        exact absurd hfind2 (findBySessionAndItem_append_self cfg sh.store dto now hts hW)

/-- C2 amended witness: concrete instantiation at the default impression
configuration, the example DTO and an empty initial state. -/
theorem c2_sequential_at_most_one_witness :
    (0 : Int) ≤ impressionConfig.rateLimitWindow
    ∧ exDto.timestamp = none
    ∧ (isAccepted (trackImpression impressionConfig [] [] exDto 0 true).1 = true →
        isAccepted (trackImpression impressionConfig
            (trackImpression impressionConfig [] [] exDto 0 true).2.1
            (trackImpression impressionConfig [] [] exDto 0 true).2.2
            exDto 0 true).1 = false) :=
  ⟨by decide, rfl,
   (c2_sequential_at_most_one impressionConfig exDto 0 ⟨[], []⟩ (by decide) rfl).2⟩

/-- C3 counterexample: a batch of two events with the same key, submitted
against a fresh state with the default configuration, returns a result list of
length 1, not one positionally aligned entry per input. -/
theorem c3_batch_result_not_aligned :
    (trackImpressionsBatch impressionConfig [] [] [exDto, exDto] 0).1.length = 1
    ∧ [exDto, exDto].length = 2
    ∧ (trackImpressionsBatch impressionConfig [] [] [exDto, exDto] 0).1.length
        ≠ [exDto, exDto].length := by
  decide

theorem batchLoop_valid_sublist (cfg : Config) (now : Int) (ex : List String) :
    ∀ (ds : List TrackDto) (c : Cache),
      (batchLoop cfg now ex ds c).1.Sublist (ds.map (fun d => mkEvent d now))
  | [], _ => by simp [batchLoop]
  | d :: ds, c => by
    by_cases hskip : batchSkip cfg c ex (cacheKey d.session_id d.item_id) now
    · simpa [batchLoop, hskip] using
        (batchLoop_valid_sublist cfg now ex ds c).cons (mkEvent d now)
    · simpa [batchLoop, hskip] using
        (batchLoop_valid_sublist cfg now ex ds
          (cacheSet c (cacheKey d.session_id d.item_id) now)).cons₂ (mkEvent d now)

theorem trackImpressionsBatch_fst_eq (cfg : Config) (cache : Cache)
    (store : List EventRec) (dtos : List TrackDto) (now : Int) :
    (trackImpressionsBatch cfg cache store dtos now).1
      = (batchLoop cfg now (existingKeysOf cfg store dtos now) dtos cache).1 := by
  unfold trackImpressionsBatch
  by_cases hempty : dtos.isEmpty
  · have : dtos = [] := by simpa [List.isEmpty_iff] using hempty
    subst this
    simp [batchLoop]
  · simp only [if_neg hempty]
    by_cases hvalid :
        (batchLoop cfg now (existingKeysOf cfg store dtos now) dtos cache).1.isEmpty
    · have h0 : (batchLoop cfg now (existingKeysOf cfg store dtos now) dtos cache).1 = [] := by
        simpa [List.isEmpty_iff] using hvalid
      simp [hvalid, h0]
    · simp [hvalid]

/-- C3 amended: batch submission returns exactly the accepted events, in input
order, as a subsequence of the (timestamp-normalised) inputs — the rejected
inputs are dropped from the result, so the output length is at most `n` and an
empty batch yields an empty result; positional alignment with the input does
not hold. -/
theorem c3_batch_returns_accepted_subsequence (cfg : Config) (cache : Cache)
    (store : List EventRec) (dtos : List TrackDto) (now : Int) :
    (trackImpressionsBatch cfg cache store dtos now).1.Sublist
        (dtos.map (fun d => mkEvent d now))
    ∧ (trackImpressionsBatch cfg cache store dtos now).1.length ≤ dtos.length
    ∧ (dtos = [] → (trackImpressionsBatch cfg cache store dtos now).1 = []) := by
  have hsub : (trackImpressionsBatch cfg cache store dtos now).1.Sublist
      (dtos.map (fun d => mkEvent d now)) := by
    rw [trackImpressionsBatch_fst_eq]
    exact batchLoop_valid_sublist cfg now (existingKeysOf cfg store dtos now) dtos cache
  refine ⟨hsub, ?_, ?_⟩
  · simpa using hsub.length_le
  · intro h
    subst h
    rfl

/-- C3 amended witness: the conditional conjunct discharged at the empty batch. -/
theorem c3_batch_returns_accepted_subsequence_witness :
    (trackImpressionsBatch impressionConfig [] [] [] 0).1 = [] :=
  (c3_batch_returns_accepted_subsequence impressionConfig [] [] [] 0).2.2 rfl

/-- C7 counterexample: on a store whose two items each have one impression,
with item `"B"` first in document order, `trending(2)` returns `["B", "A"]`
even though the impression counts tie and `"A" < "B"` — the ties are not broken
by `item_id` ascending (the pipeline has no secondary sort key). -/
theorem c7_trending_tie_not_by_item_id :
    ((getPopularItemsAggregation 2 {} [exBEvent, exAEvent]).map (·.itemId)) = ["B", "A"]
    ∧ ((getPopularItemsAggregation 2 {} [exBEvent, exAEvent]).map (·.impressions)) = [1, 1]
    ∧ "A" < "B"
    ∧ ((getPopularItemsAggregation 2 {} [exBEvent, exAEvent]).map (·.itemId)) ≠ ["A", "B"] := by
  refine ⟨by decide, by decide, ?_, by decide⟩
  exact String.lt_iff_toList_lt.mpr (by decide)

theorem mem_insertRow (x z : TrendingRow) :
    ∀ l : List TrendingRow, z ∈ insertRow x l ↔ z = x ∨ z ∈ l
  | [] => by simp [insertRow]
  | y :: ys => by
    by_cases h : y.impressions < x.impressions
    · simp [insertRow, h]
    · simp only [insertRow, if_neg h, List.mem_cons, mem_insertRow x z ys]
      tauto

theorem pairwise_insertRow (x : TrendingRow) :
    ∀ l : List TrendingRow,
      l.Pairwise (fun a b => b.impressions ≤ a.impressions) →
      (insertRow x l).Pairwise (fun a b => b.impressions ≤ a.impressions)
  | [], _ => by simp [insertRow]
  | y :: ys, h => by
    rw [List.pairwise_cons] at h
    by_cases hlt : y.impressions < x.impressions
    · rw [insertRow, if_pos hlt, List.pairwise_cons]
      refine ⟨?_, List.pairwise_cons.mpr h⟩
      intro z hz
      rcases List.mem_cons.mp hz with hzy | hzys
      · exact hzy ▸ le_of_lt hlt
      · exact le_trans (h.1 z hzys) (le_of_lt hlt)
    · rw [insertRow, if_neg hlt, List.pairwise_cons]
      constructor
      · intro z hz
        rcases (mem_insertRow x z ys).mp hz with hzx | hzys
        · exact hzx ▸ le_of_not_lt hlt
        · exact h.1 z hzys
      · exact pairwise_insertRow x ys h.2

theorem pairwise_sortRowsDesc_aux :
    ∀ (rows acc : List TrendingRow),
      acc.Pairwise (fun a b => b.impressions ≤ a.impressions) →
      (rows.foldl (fun a x => insertRow x a) acc).Pairwise
        (fun a b => b.impressions ≤ a.impressions)
  | [], _, h => h
  | r :: rs, acc, h =>
    pairwise_sortRowsDesc_aux rs (insertRow r acc) (pairwise_insertRow r acc h)

theorem length_insertRow (x : TrendingRow) :
    ∀ l : List TrendingRow, (insertRow x l).length = l.length + 1
  | [] => rfl
  | y :: ys => by
    by_cases h : y.impressions < x.impressions
    · simp [insertRow, h]
    · simp [insertRow, h, length_insertRow x ys]

theorem length_sortRowsDesc_aux :
    ∀ (rows acc : List TrendingRow),
      (rows.foldl (fun a x => insertRow x a) acc).length = acc.length + rows.length
  | [], acc => by simp
  | r :: rs, acc => by
    simp [List.foldl_cons, length_sortRowsDesc_aux rs (insertRow r acc), length_insertRow]
    omega

theorem length_sortRowsDesc (rows : List TrendingRow) :
    (sortRowsDesc rows).length = rows.length := by
  unfold sortRowsDesc
  simpa using length_sortRowsDesc_aux rows []

/-- C7 amended: `trending` returns the grouped rows sorted descending by
impression count and truncated to `limit` (its length is the smaller of `limit`
and the number of distinct matched items); the claimed `item_id`-ascending tie
break does not hold — rows with equal counts keep the store's group
(first-appearance) order. -/
theorem c7_trending_sorted_desc_truncated (limit : Nat) (f : AnalyticsFilters)
    (store : List EventRec) :
    (getPopularItemsAggregation limit f store).Pairwise
        (fun a b => b.impressions ≤ a.impressions)
    ∧ (getPopularItemsAggregation limit f store).length
        = min limit (distinctVals ((matchStage f store).map (·.item_id)) []).length := by
  constructor
  · exact (pairwise_sortRowsDesc_aux _ [] List.Pairwise.nil).sublist (List.take_sublist _ _)
  · show ((sortRowsDesc _).take limit).length = _
    rw [List.length_take, length_sortRowsDesc, List.length_map]

/-- C6: a `BadRequestException` rejection (rate-limited or duplicate) leaves
the hot cache and the store untouched, and a key whose cache entry is within
the cooldown is rejected as rate-limited with unchanged state — so resubmitting
an already-accepted key within the cooldown yields the same rejection kind on
every retry.  (The store-failure path, which does mutate the cache, is claim
C10's subject and is not a dedup/rate-limit rejection.) -/
theorem c6_rejection_no_side_effect (cfg : Config) (cache : Cache)
    (store : List EventRec) (dto : TrackDto) (now : Int) (storeOk : Bool) :
    (∀ r c' st', trackImpression cfg cache store dto now storeOk = (r, c', st') →
        (r = .rateLimited ∨ r = .duplicate) → c' = cache ∧ st' = store)
    ∧ (∀ t0, cacheGet cache (cacheKey dto.session_id dto.item_id) = some t0 →
        now - t0 < cfg.cooldown →
        trackImpression cfg cache store dto now storeOk
          = (.rateLimited, cache, store)) := by
  constructor
  · intro r c' st' heq hrej
    by_cases hf : cacheFresh cfg cache (cacheKey dto.session_id dto.item_id) now
    · simp only [trackImpression, hf, if_true, Prod.mk.injEq] at heq
      exact ⟨heq.2.1.symm, heq.2.2.symm⟩
    · cases hfind : findBySessionAndItem store dto.session_id dto.item_id
          (now - cfg.rateLimitWindow) with
      | some e =>
        simp only [trackImpression, hf, if_false, Bool.false_eq_true, hfind,
          Prod.mk.injEq] at heq
        exact ⟨heq.2.1.symm, heq.2.2.symm⟩
      | none =>
        by_cases hok : storeOk
        · simp only [trackImpression, hf, Bool.false_eq_true, if_false, hfind,
            hok, if_true, Prod.mk.injEq] at heq
          rcases hrej with h | h <;> rw [← heq.1] at h <;> simp at h
        · simp only [trackImpression, hf, Bool.false_eq_true, if_false, hfind,
            hok, Prod.mk.injEq] at heq
          rcases hrej with h | h <;> rw [← heq.1] at h <;> simp at h
  · intro t0 hget hlt
    have hf : cacheFresh cfg cache (cacheKey dto.session_id dto.item_id) now = true := by
      simp [cacheFresh, hget, hlt]
    simp [trackImpression, hf]

/-- C6 witness: a key accepted at time 0 and resubmitted at time 10 (inside the
default 30s impression cooldown) is rejected as rate-limited with unchanged
cache and store. -/
theorem c6_rejection_no_side_effect_witness :
    trackImpression impressionConfig [(cacheKey exDto.session_id exDto.item_id, 0)]
        [] exDto 10 true
      = (.rateLimited, [(cacheKey exDto.session_id exDto.item_id, 0)], []) :=
  (c6_rejection_no_side_effect impressionConfig
      [(cacheKey exDto.session_id exDto.item_id, 0)] [] exDto 10 true).2 0 rfl (by decide)

theorem length_filter_not_add (p : EventRec → Bool) :
    ∀ l : List EventRec,
      (l.filter (fun e => !(p e))).length + (l.filter p).length = l.length
  | [] => rfl
  | e :: rest => by
    by_cases h : p e
    · simp [List.filter, h, ← length_filter_not_add p rest]
      omega
    · simp [List.filter, h, ← length_filter_not_add p rest]
      omega

/-- C9: after the retention purge, no remaining event of the kind has a
timestamp strictly before the cutoff; the events at or after the cutoff remain,
unchanged and in order; the reported count is the number of deleted documents;
and `cleanOldEvents` runs both per-kind deletions with the same cutoff and
returns both counts. -/
theorem c9_retention_purge (imps clks : List EventRec) (cutoff : Int) :
    (∀ e ∈ (deleteOldEvents imps cutoff).1, tsLt e.ts cutoff = false)
    ∧ (deleteOldEvents imps cutoff).1.Sublist imps
    ∧ (∀ e ∈ imps, tsLt e.ts cutoff = false → e ∈ (deleteOldEvents imps cutoff).1)
    ∧ (deleteOldEvents imps cutoff).2
        = (imps.filter (fun e => tsLt e.ts cutoff)).length
    ∧ (deleteOldEvents imps cutoff).1.length + (deleteOldEvents imps cutoff).2
        = imps.length
    ∧ cleanOldEvents imps clks cutoff
        = (((deleteOldEvents imps cutoff).1, (deleteOldEvents clks cutoff).1),
           ((deleteOldEvents imps cutoff).2, (deleteOldEvents clks cutoff).2)) := by
  refine ⟨?_, ?_, ?_, rfl, ?_, rfl⟩
  · intro e he
    have := (List.mem_filter.mp he).2
    simpa using this
  · exact List.filter_sublist _
  · intro e he h
    exact List.mem_filter.mpr ⟨he, by simp [h]⟩
  · exact length_filter_not_add _ imps

/-- C9 witness: an event at the cutoff instant survives the purge of a
one-event store. -/
theorem c9_retention_purge_witness :
    exImpY ∈ (deleteOldEvents [exImpY] 0).1 :=
  (c9_retention_purge [exImpY] [] 0).2.2.1 exImpY (by decide) (by decide)

/-- C10: when both checks pass, the failed store append still leaves the key's
cache entry set to the submission time (the cache write precedes the awaited
append and is not rolled back), the store is unchanged, and any later
submission of the same key within the cooldown is rejected as rate-limited even
though no event was persisted. -/
theorem c10_cache_updated_before_failed_append (cfg : Config) (cache : Cache)
    (store : List EventRec) (dto : TrackDto) (now : Int)
    (hfresh : cacheFresh cfg cache (cacheKey dto.session_id dto.item_id) now = false)
    (hdup : findBySessionAndItem store dto.session_id dto.item_id
        (now - cfg.rateLimitWindow) = none) :
    trackImpression cfg cache store dto now false
      = (.storeUnavailable,
         cacheSet cache (cacheKey dto.session_id dto.item_id) now, store)
    ∧ ∀ t' storeOk, t' - now < cfg.cooldown →
        trackImpression cfg (cacheSet cache (cacheKey dto.session_id dto.item_id) now)
            store dto t' storeOk
          = (.rateLimited,
             cacheSet cache (cacheKey dto.session_id dto.item_id) now, store) := by
  constructor
  · simp [trackImpression, hfresh, hdup]
  · intro t' storeOk hlt
    have hf2 : cacheFresh cfg
        (cacheSet cache (cacheKey dto.session_id dto.item_id) now)
        (cacheKey dto.session_id dto.item_id) t' = true := by
      simp [cacheFresh, cacheGet_set_self, hlt]
    simp [trackImpression, hf2]

/-- C10 witness: from a fresh state, a submission at time 0 whose append fails
leaves the cache entry at 0 and the store empty, and the retry at time 1 is
rejected as rate-limited. -/
theorem c10_cache_updated_before_failed_append_witness :
    trackImpression impressionConfig [] [] exDto 0 false
      = (.storeUnavailable,
         cacheSet [] (cacheKey exDto.session_id exDto.item_id) 0, [])
    ∧ trackImpression impressionConfig
        (cacheSet [] (cacheKey exDto.session_id exDto.item_id) 0) [] exDto 1 true
      = (.rateLimited, cacheSet [] (cacheKey exDto.session_id exDto.item_id) 0, []) :=
  ⟨(c10_cache_updated_before_failed_append impressionConfig [] [] exDto 0 rfl rfl).1,
   (c10_cache_updated_before_failed_append impressionConfig [] [] exDto 0 rfl rfl).2
      1 true (by decide)⟩

theorem find_mapped_none_iff (dto : TrackDto) (hts : dto.timestamp = none)
    (acc : List Int) (b : Int) :
    findBySessionAndItem (acc.map (fun v => mkEvent dto v)) dto.session_id
        dto.item_id b = none
      ↔ ∀ v ∈ acc, v < b := by
  rw [findBySessionAndItem, List.find?_eq_none]
  constructor
  · intro h v hv
    have := h (mkEvent dto v) (List.mem_map_of_mem _ hv)
    simp [mkEvent, normalizeTs, hts, tsGe] at this
    omega
  · intro h e he
    obtain ⟨v, hv, rfl⟩ := List.mem_map.mp he
    simp [mkEvent, normalizeTs, hts, tsGe]
    exact h v hv

theorem runTrack_eq_runSpec (cfg : Config) (dto : TrackDto)
    (hts : dto.timestamp = none) :
    ∀ (ts acc : List Int),
      runTrack cfg dto (keyCache dto acc) (acc.map (fun v => mkEvent dto v)) ts
        = runSpecTrack cfg acc ts
  | [], _ => rfl
  | t :: rest, acc => by
    cases hlast : acc.getLast? with
    | none =>
      have hacc : acc = [] := by simpa using hlast
      subst hacc
      have ih := runTrack_eq_runSpec cfg dto hts rest [t]
      simp only [keyCache, List.getLast?_nil, List.map_nil] at ih ⊢
      simp only [runTrack, runSpecTrack, trackImpression, specAccept,
        List.getLast?_nil, cacheFresh, cacheGet, List.find?, findBySessionAndItem,
        Option.map_none, cacheSet, List.nil_append, Bool.false_eq_true, if_false,
        isAccepted]
      exact congrArg (true :: ·) (by simpa [keyCache] using ih)
    | some last =>
      have hkc : keyCache dto acc
          = [(cacheKey dto.session_id dto.item_id, last)] := by
        simp [keyCache, hlast]
      have hcf : cacheFresh cfg (keyCache dto acc)
            (cacheKey dto.session_id dto.item_id) t
          = decide (t - last < cfg.cooldown) := by
        simp [hkc, cacheFresh, cacheGet, List.find?]
      by_cases hcool : t - last < cfg.cooldown
      · have hcft : cacheFresh cfg (keyCache dto acc)
            (cacheKey dto.session_id dto.item_id) t = true := by
          rw [hcf]; simpa using hcool
        have hd : specAccept cfg acc t = false := by
          simp only [specAccept, hlast, Bool.and_eq_false_iff]
          exact Or.inl (by simpa using (by omega : ¬cfg.cooldown ≤ t - last))
        have ih := runTrack_eq_runSpec cfg dto hts rest acc
        simp only [runTrack, runSpecTrack, trackImpression, hcft, if_true,
          isAccepted, hd, if_false, Bool.false_eq_true]
        exact congrArg (false :: ·) ih
      · cases hfind : findBySessionAndItem
            (acc.map (fun v => mkEvent dto v)) dto.session_id dto.item_id
            (t - cfg.rateLimitWindow) with
        | some e =>
          have hnall : acc.all (fun v => decide (v < t - cfg.rateLimitWindow))
              = false := by
            rcases hb : acc.all (fun v => decide (v < t - cfg.rateLimitWindow)) with _ | _
            · rfl
            · exfalso
              have hall : ∀ v ∈ acc, v < t - cfg.rateLimitWindow := by
                intro v hv
                simpa using (List.all_eq_true.mp hb v hv)
              rw [(find_mapped_none_iff dto hts acc (t - cfg.rateLimitWindow)).mpr hall]
                at hfind
              cases hfind
          have hcff : cacheFresh cfg (keyCache dto acc)
              (cacheKey dto.session_id dto.item_id) t = false := by
            rw [hcf]; simpa using hcool
          have hd : specAccept cfg acc t = false := by
            simp [specAccept, hlast, hnall]
          have ih := runTrack_eq_runSpec cfg dto hts rest acc
          simp only [runTrack, runSpecTrack, trackImpression, hcff,
            Bool.false_eq_true, if_false, hfind, isAccepted, hd]
          exact congrArg (false :: ·) ih
        | none =>
          have hall : ∀ v ∈ acc, v < t - cfg.rateLimitWindow :=
            (find_mapped_none_iff dto hts acc (t - cfg.rateLimitWindow)).mp hfind
          have hd : specAccept cfg acc t = true := by
            simp only [specAccept, hlast, Bool.and_eq_true, decide_eq_true_eq,
              List.all_eq_true]
            exact ⟨by omega, fun v hv => by simpa using hall v hv⟩
          have hcff : cacheFresh cfg (keyCache dto acc)
              (cacheKey dto.session_id dto.item_id) t = false := by
            rw [hcf]; simpa using hcool
          have hset : cacheSet (keyCache dto acc)
                (cacheKey dto.session_id dto.item_id) t
              = keyCache dto (acc ++ [t]) := by
            rw [hkc]
            simp [cacheSet, keyCache, List.getLast?_concat]
          have hstore : acc.map (fun v => mkEvent dto v) ++ [mkEvent dto t]
              = (acc ++ [t]).map (fun v => mkEvent dto v) := by
            simp
          have ih := runTrack_eq_runSpec cfg dto hts rest (acc ++ [t])
          simp only [runTrack, runSpecTrack, trackImpression, hcff,
            Bool.false_eq_true, if_false, hfind, isAccepted, hd,
            if_true, hset, hstore]
          exact congrArg (true :: ·) ih

/-- C1: for a fixed key and a strictly increasing sequence of single
submissions (with no client-supplied timestamps), the sequence of
accept/reject decisions of the code equals the spec-side decisions: a
submission at `tᵢ` is accepted iff `tᵢ` minus the most recent prior accepted
time is at least the kind-specific cooldown AND no accepted event of the key
lies in the preceding rate-limit window `[tᵢ - W, tᵢ]`. -/
theorem c1_acceptance_iff (cfg : Config) (dto : TrackDto)
    (hts : dto.timestamp = none) (ts : List Int)
    (hmono : ts.Chain' (· < ·)) :
    runTrack cfg dto [] [] ts = runSpecTrack cfg [] ts := by
  simpa [keyCache] using runTrack_eq_runSpec cfg dto hts ts []

theorem batchSkip_of_blocked (cfg : Config) (ex : List String) (now : Int)
    (k : String) (c : Cache) (h : keyBlocked cfg ex now k c) :
    batchSkip cfg c ex k now = true := by
  rcases h with hmem | ⟨v, hget, hlt⟩
  · simp [batchSkip, hmem]
  · simp [batchSkip, cacheFresh, hget, hlt]

theorem keyBlocked_cacheSet (cfg : Config) (ex : List String) (now : Int)
    (k : String) (c : Cache) (hC : 0 < cfg.cooldown)
    (h : keyBlocked cfg ex now k c) (k' : String) :
    keyBlocked cfg ex now k (cacheSet c k' now) := by
  by_cases hk : k' = k
  · subst hk
    exact Or.inr ⟨now, cacheGet_set_self c k' now, by omega⟩
  · rcases h with hmem | ⟨v, hget, hlt⟩
    · exact Or.inl hmem
    · exact Or.inr ⟨v, (cacheGet_set_ne c k k' now hk).trans hget, hlt⟩

theorem keyBlocked_batchLoop (cfg : Config) (ex : List String) (now : Int)
    (k : String) (hC : 0 < cfg.cooldown) :
    ∀ (ds : List TrackDto) (c : Cache), keyBlocked cfg ex now k c →
      keyBlocked cfg ex now k (batchLoop cfg now ex ds c).2.1
  | [], _, h => h
  | d :: ds, c, h => by
    by_cases hskip : batchSkip cfg c ex (cacheKey d.session_id d.item_id) now
    · simpa [batchLoop, hskip] using keyBlocked_batchLoop cfg ex now k hC ds c h
    · simpa [batchLoop, hskip] using
        keyBlocked_batchLoop cfg ex now k hC ds _
          (keyBlocked_cacheSet cfg ex now k c hC h _)

theorem keyBlocked_after_self (cfg : Config) (ex : List String) (now : Int)
    (k : String) (c : Cache) (hC : 0 < cfg.cooldown) :
    keyBlocked cfg ex now k
      (if batchSkip cfg c ex k now then c else cacheSet c k now) := by
  by_cases hskip : batchSkip cfg c ex k now
  · rw [if_pos hskip]
    by_cases hfresh : cacheFresh cfg c k now
    · cases hget : cacheGet c k with
      | none => rw [cacheFresh, hget] at hfresh; cases hfresh
      | some v =>
        rw [cacheFresh, hget, decide_eq_true_eq] at hfresh
        exact Or.inr ⟨v, hget, hfresh⟩
    · refine Or.inl ?_
      have h := hskip
      rw [batchSkip] at h
      simpa [hfresh] using h
  · rw [if_neg hskip]
    exact Or.inr ⟨now, cacheGet_set_self c k now, by omega⟩

theorem batchLoop_cons_decs (cfg : Config) (ex : List String) (now : Int)
    (d : TrackDto) (ds : List TrackDto) (c : Cache) :
    (batchLoop cfg now ex (d :: ds) c).2.2
      = (!batchSkip cfg c ex (cacheKey d.session_id d.item_id) now)
        :: (batchLoop cfg now ex ds
              (if batchSkip cfg c ex (cacheKey d.session_id d.item_id) now then c
               else cacheSet c (cacheKey d.session_id d.item_id) now)).2.2 := by
  by_cases hskip : batchSkip cfg c ex (cacheKey d.session_id d.item_id) now <;>
    simp [batchLoop, hskip]

theorem batchLoop_cons_cache (cfg : Config) (ex : List String) (now : Int)
    (d : TrackDto) (ds : List TrackDto) (c : Cache) :
    (batchLoop cfg now ex (d :: ds) c).2.1
      = (batchLoop cfg now ex ds
          (if batchSkip cfg c ex (cacheKey d.session_id d.item_id) now then c
           else cacheSet c (cacheKey d.session_id d.item_id) now)).2.1 := by
  by_cases hskip : batchSkip cfg c ex (cacheKey d.session_id d.item_id) now <;>
    simp [batchLoop, hskip]

theorem batchLoop_append_decs (cfg : Config) (ex : List String) (now : Int) :
    ∀ (xs ys : List TrackDto) (c : Cache),
      (batchLoop cfg now ex (xs ++ ys) c).2.2
        = (batchLoop cfg now ex xs c).2.2
          ++ (batchLoop cfg now ex ys (batchLoop cfg now ex xs c).2.1).2.2
  | [], ys, c => by simp [batchLoop]
  | x :: xs, ys, c => by
    by_cases hskip : batchSkip cfg c ex (cacheKey x.session_id x.item_id) now <;>
      simp [batchLoop, hskip, batchLoop_append_decs cfg ex now xs ys]

theorem batchLoop_append_cache (cfg : Config) (ex : List String) (now : Int) :
    ∀ (xs ys : List TrackDto) (c : Cache),
      (batchLoop cfg now ex (xs ++ ys) c).2.1
        = (batchLoop cfg now ex ys (batchLoop cfg now ex xs c).2.1).2.1
  | [], ys, c => by simp [batchLoop]
  | x :: xs, ys, c => by
    by_cases hskip : batchSkip cfg c ex (cacheKey x.session_id x.item_id) now <;>
      simp [batchLoop, hskip, batchLoop_append_cache cfg ex now xs ys]

theorem batchLoop_decs_length (cfg : Config) (ex : List String) (now : Int) :
    ∀ (ds : List TrackDto) (c : Cache),
      (batchLoop cfg now ex ds c).2.2.length = ds.length
  | [], _ => rfl
  | d :: ds, c => by
    by_cases hskip : batchSkip cfg c ex (cacheKey d.session_id d.item_id) now <;>
      simp [batchLoop, hskip, batchLoop_decs_length cfg ex now ds]

theorem batchLoop_valid_filterMap (cfg : Config) (ex : List String) (now : Int) :
    ∀ (ds : List TrackDto) (c : Cache),
      (batchLoop cfg now ex ds c).1
        = (ds.zip (batchLoop cfg now ex ds c).2.2).filterMap
            (fun p => if p.2 then some (mkEvent p.1 now) else none)
  | [], _ => rfl
  | d :: ds, c => by
    by_cases hskip : batchSkip cfg c ex (cacheKey d.session_id d.item_id) now <;>
      simp [batchLoop, hskip, batchLoop_valid_filterMap cfg ex now ds]

theorem trackImpressionsBatch_store_eq (cfg : Config) (cache : Cache)
    (store : List EventRec) (dtos : List TrackDto) (now : Int) :
    (trackImpressionsBatch cfg cache store dtos now).2.2
      = store ++ (trackImpressionsBatch cfg cache store dtos now).1 := by
  unfold trackImpressionsBatch
  by_cases hempty : dtos.isEmpty
  · simp [hempty]
  · simp only [if_neg hempty]
    by_cases hvalid :
        (batchLoop cfg now (existingKeysOf cfg store dtos now) dtos cache).1.isEmpty <;>
      simp [hvalid]

/-- C4: in one batch, any input that has an earlier input with the same
`(session_id, item_id)` key is never accepted (so at most one event per key is
accepted and it is the earliest in input order, provided the cooldown is
positive), and the returned (persisted) events are exactly the
timestamp-normalised inputs whose decision was positive, appended to the store. -/
theorem c4_intra_batch_dedup (cfg : Config) (cache : Cache)
    (store : List EventRec) (now : Int) (pre mid post : List TrackDto)
    (d1 d2 : TrackDto) (hC : 0 < cfg.cooldown)
    (hsession : d1.session_id = d2.session_id)
    (hitem : d1.item_id = d2.item_id) :
    (batchDecisions cfg cache store (pre ++ d1 :: (mid ++ d2 :: post)) now)[pre.length + (mid.length + 1)]?
        = some false
    ∧ (trackImpressionsBatch cfg cache store (pre ++ d1 :: (mid ++ d2 :: post)) now).1
        = ((pre ++ d1 :: (mid ++ d2 :: post)).zip
            (batchDecisions cfg cache store (pre ++ d1 :: (mid ++ d2 :: post)) now)).filterMap
            (fun p => if p.2 then some (mkEvent p.1 now) else none)
    ∧ (trackImpressionsBatch cfg cache store (pre ++ d1 :: (mid ++ d2 :: post)) now).2.2
        = store
          ++ (trackImpressionsBatch cfg cache store (pre ++ d1 :: (mid ++ d2 :: post)) now).1 := by
  refine ⟨?_, ?_, trackImpressionsBatch_store_eq cfg cache store _ now⟩
  · have hk1 : cacheKey d1.session_id d1.item_id = cacheKey d2.session_id d2.item_id := by
      rw [hsession, hitem]
    unfold batchDecisions
    rw [batchLoop_append_decs, batchLoop_cons_decs, hk1, batchLoop_append_decs,
      batchLoop_cons_decs]
    rw [batchSkip_of_blocked _ _ _ _ _
      (keyBlocked_batchLoop _ _ _ _ hC mid _
        (keyBlocked_after_self _ _ _ _ _ hC))]
    rw [List.getElem?_append_right (by rw [batchLoop_decs_length]; omega)]
    rw [batchLoop_decs_length, Nat.add_sub_cancel_left, List.getElem?_cons_succ]
    rw [List.getElem?_append_right (le_of_eq (batchLoop_decs_length _ _ _ _ _))]
    rw [batchLoop_decs_length, Nat.sub_self, List.getElem?_cons_zero]
    simp
  · have := batchLoop_valid_filterMap cfg
        (existingKeysOf cfg store (pre ++ d1 :: (mid ++ d2 :: post)) now) now
        (pre ++ d1 :: (mid ++ d2 :: post)) cache
    rw [trackImpressionsBatch_fst_eq, batchDecisions]
    exact this

/-- C4 witness: a fresh-state batch of two identical events; the second gets
decision `false`. -/
theorem c4_intra_batch_dedup_witness :
    (batchDecisions impressionConfig [] [] [exDto, exDto] 0)[1]? = some false := by
  simpa using
    (c4_intra_batch_dedup impressionConfig [] [] 0 [] [] [] exDto exDto
      (by decide) rfl rfl).1

/-- C1 witness: the default impression configuration on submission times
0, 40s, 70s — the 40s submission clears the 30s cooldown but is rejected by
the 60s rate-limit window; the 70s one is accepted. -/
theorem c1_acceptance_iff_witness :
    exDto.timestamp = none
    ∧ ([0, 40000, 70000] : List Int).Chain' (· < ·)
    ∧ runTrack impressionConfig exDto [] [] [0, 40000, 70000]
        = runSpecTrack impressionConfig [] [0, 40000, 70000]
    ∧ runSpecTrack impressionConfig [] [0, 40000, 70000] = [true, false, true] :=
  ⟨rfl, by norm_num [List.chain'_cons],
   c1_acceptance_iff impressionConfig exDto rfl [0, 40000, 70000]
     (by norm_num [List.chain'_cons]),
   by decide⟩

end AuctionAnalytics
